import Mathlib

/-
Verification development for NetworkPulse (pings.py).

The script probes a registry of hosts with the ping3 library, writes one CSV
row per host (average latency over the successful attempts, or "Unreachable"),
and returns a flag telling whether every host was unreachable; generate_report
then emails the CSV to an error recipient or a normal recipient depending on
that flag.

Shallow embedding conventions:
- a call to `ping(ip)` either returns a value (`PingOutcome.val`) or raises
  (`PingOutcome.err`).  The returned value is `PVal.pNone` (Python `None`),
  `PVal.pFalse` (Python `False`, which ping3 uses for some failures; it is
  numerically 0) or `PVal.pFloat q` (a latency in seconds, modelled as ℚ).
- the sequence of results of the successive `ping` calls for host index `i`
  is `env i 0, env i 1, ...`; the instant observed by the `i`-th call to
  `datetime.now()` inside `ping_ips` is `clock i` (one call per host).
- the CSV data row for a host is `Row`; its average-response-time column is
  `Cell.avg q` (the code formats `q` with 4 decimals) or `Cell.unreachable`.
- `ping_ips` is `pingIps`; its single pass over the registry is `pingIpsGo`,
  which threads the `all_unreachable` flag exactly as the Python loop does.
-/

set_option autoImplicit false

namespace NetworkPulse

/-- a value that a non-raising call to `ping` can return: Python `None`,
Python `False` (used by ping3 for some failures), or a float latency. -/
inductive PVal where
  | pNone
  | pFalse
  | pFloat (q : ℚ)
  deriving DecidableEq

/-- outcome of one call to `ping(ip)`: a returned value, or a raised
exception (transport-level error). -/
inductive PingOutcome where
  | val (v : PVal)
  | err
  deriving DecidableEq

/-- numeric value of a returned ping value when it is appended to the
latency list (Python `False` counts as 0 in `sum`). -/
def latencyOf : PVal → ℚ
  | .pNone => 0
  | .pFalse => 0
  | .pFloat q => q

/-- one registry entry: `{"name": ..., "ip": ...}`. -/
structure Entry where
  name : String
  ip : String
  deriving DecidableEq

/-- the average-response-time column of a CSV data row: a numeric average
(formatted with 4 decimals by the code) or the literal "Unreachable". -/
inductive Cell where
  | avg (q : ℚ)
  | unreachable
  deriving DecidableEq

/-- one CSV data row written by `ping_ips`: name, ip, average column, and
the instant of the `datetime.now()` call for this host. -/
structure Row where
  name : String
  ip : String
  cell : Cell
  time : ℕ
  deriving DecidableEq

/-- what one call to `ping_ips` produces: the data rows written to the CSV
(in writing order) and the returned `all_unreachable` boolean. -/
structure CycleResult where
  rows : List Row
  allUnreachable : Bool
  deriving DecidableEq

/-- the inner `for _ in range(ping_count)` loop of `ping_ips`, run inside a
single `try`: attempt `k` calls `ping`; a raised exception leaves the loop
(the `except` is outside the loop), keeping the latencies appended so far;
a non-`None` value is appended to the latency list. `fuel` is the number of
iterations that remain. -/
def hostLoop (f : ℕ → PingOutcome) : ℕ → ℕ → List ℚ
  | _, 0 => []
  | k, fuel + 1 =>
    match f k with
    | .err => []
    | .val v =>
      if v = PVal.pNone then hostLoop f (k + 1) fuel
      else latencyOf v :: hostLoop f (k + 1) fuel

/-- latencies recorded for a host whose successive ping calls yield
`f 0, ..., f (n-1)` (stopping early at the first raised exception). -/
def hostLats (f : ℕ → PingOutcome) (n : ℕ) : List ℚ := hostLoop f 0 n

/-- instrumentation of the same inner loop: how many `ping` calls are
actually performed out of `fuel` remaining (the raising call is performed,
the iterations after it are not). -/
def attemptLoop (f : ℕ → PingOutcome) : ℕ → ℕ → ℕ
  | _, 0 => 0
  | k, fuel + 1 =>
    match f k with
    | .err => 1
    | .val _ => 1 + attemptLoop f (k + 1) fuel

/-- number of `ping` calls performed for a host out of the `n = ping_count`
requested attempts. -/
def attemptsPerformed (f : ℕ → PingOutcome) (n : ℕ) : ℕ := attemptLoop f 0 n

/-- the CSV data row `ping_ips` writes for one entry: if the latency list is
non-empty the average `sum(latencies)/len(latencies)`, else "Unreachable";
`t` is the instant of this host's `datetime.now()` call. -/
def hostRow (e : Entry) (f : ℕ → PingOutcome) (n t : ℕ) : Row :=
  if (hostLats f n).isEmpty then ⟨e.name, e.ip, Cell.unreachable, t⟩
  else ⟨e.name, e.ip, Cell.avg ((hostLats f n).sum / ((hostLats f n).length : ℚ)), t⟩

/-- the `for entry in ips` loop of `ping_ips`: `i` is the index of the next
entry (also indexing `env` and `clock`), `flag` the current value of the
`all_unreachable` variable, which is cleared exactly when some latency was
appended for the host (i.e. stays set iff the host's latency list is empty). -/
def pingIpsGo (env : ℕ → ℕ → PingOutcome) (clock : ℕ → ℕ) (pc : ℕ) :
    List Entry → ℕ → Bool → List Row × Bool
  | [], _, flag => ([], flag)
  | e :: rest, i, flag =>
    let out := pingIpsGo env clock pc rest (i + 1) (flag && (hostLats (env i) pc).isEmpty)
    (hostRow e (env i) pc (clock i) :: out.1, out.2)

/-- `ping_ips(ips, output_file, ping_count=pc)`: writes one row per entry and
returns the `all_unreachable` flag, initialised to `True`. -/
def pingIps (ips : List Entry) (env : ℕ → ℕ → PingOutcome) (clock : ℕ → ℕ)
    (pc : ℕ) : CycleResult :=
  let out := pingIpsGo env clock pc ips 0 true
  ⟨out.1, out.2⟩

/-- SMTP configuration of recipients (from environment variables). -/
structure Config where
  reportRecipient : String
  errorRecipient : String

/-- the message assembled and delivered by `send_email`. -/
structure Email where
  subject : String
  body : String
  attachment : Option String
  recipient : String
  deriving DecidableEq

/-- `send_email(subject, body, attachment_path, recipient)`: the attachment
is added only under `if attachment_path:` (truthiness: non-empty string). -/
def sendEmail (subject body attachmentPath recipient : String) : Email :=
  ⟨subject, body, if attachmentPath = "" then none else some attachmentPath, recipient⟩

/-- the report file path built by `generate_report` from the timestamp
string `ts` (`datetime.now().strftime("%Y%m%d_%H%M%S")`). -/
def reportPath (ts : String) : String :=
  "C:/Users/kapingura/Documents/BHC/reports/BHC LINK REPORT_" ++ ts ++ ".csv"

/-- `generate_report()`: run `ping_ips` with the default `ping_count=5`,
then email the report to the error recipient with the error subject/body
when `all_unreachable` is true, else to the report recipient with the
normal subject/body. -/
def generateReport (cfg : Config) (ips : List Entry) (env : ℕ → ℕ → PingOutcome)
    (clock : ℕ → ℕ) (ts : String) : CycleResult × Email :=
  let outputFile := reportPath ts
  let result := pingIps ips env clock 5
  if result.allUnreachable then
    (result, sendEmail "Ping Report - Error"
      "All IPs are unreachable or there is no internet access." outputFile cfg.errorRecipient)
  else
    (result, sendEmail "Network Status Report"
      "Please find attached the latest network status report." outputFile cfg.reportRecipient)

/-- latencies of the successful attempts (non-`None` returned values) among
attempt results `f 0, ..., f (n-1)`, as the spec's Aggregator describes
them: the filter of the attempt-result sequence to its successes. -/
def successLatencies (f : ℕ → PingOutcome) (n : ℕ) : List ℚ :=
  (List.range n).filterMap fun k =>
    match f k with
    | .err => none
    | .val v => if v = PVal.pNone then none else some (latencyOf v)

/-- characterisation helper: the rows `ping_ips` writes, entry by entry. -/
def rowsFrom (env : ℕ → ℕ → PingOutcome) (clock : ℕ → ℕ) (pc : ℕ) :
    List Entry → ℕ → List Row
  | [], _ => []
  | e :: rest, i => hostRow e (env i) pc (clock i) :: rowsFrom env clock pc rest (i + 1)

/-- characterisation helper: every remaining host records no latency. -/
def allEmpty (env : ℕ → ℕ → PingOutcome) (pc : ℕ) : List Entry → ℕ → Bool
  | [], _ => true
  | _ :: rest, i => (hostLats (env i) pc).isEmpty && allEmpty env pc rest (i + 1)

/-- contribution of one executed, non-raising attempt to the latency list. -/
def attemptPiece : PingOutcome → List ℚ
  | .err => []
  | .val v => if v = PVal.pNone then [] else [latencyOf v]

lemma hostLoop_succ (f : ℕ → PingOutcome) (s m : ℕ) :
    hostLoop f s (m + 1) =
      match f s with
      | .err => []
      | .val v =>
        if v = PVal.pNone then hostLoop f (s + 1) m
        else latencyOf v :: hostLoop f (s + 1) m := rfl

lemma hostLoop_err_trunc (f : ℕ → PingOutcome) :
    ∀ d s m, d < m → f (s + d) = PingOutcome.err →
      (∀ j, j < d → f (s + j) ≠ PingOutcome.err) →
      hostLoop f s m = hostLoop f s d := by
  intro d
  induction d with
  | zero =>
    intro s m hm herr _
    obtain ⟨m', rfl⟩ : ∃ m', m = m' + 1 := ⟨m - 1, by omega⟩
    simp only [Nat.add_zero] at herr
    simp [hostLoop, herr]
  | succ e ih =>
    intro s m hm herr hpre
    obtain ⟨m', rfl⟩ : ∃ m', m = m' + 1 := ⟨m - 1, by omega⟩
    have hs : f s ≠ PingOutcome.err := by simpa using hpre 0 (Nat.succ_pos e)
    cases hv : f s with
    | err => exact absurd hv hs
    | val v =>
      have herr' : f (s + 1 + e) = PingOutcome.err := by
        have h : s + 1 + e = s + (e + 1) := by omega
        rw [h]; exact herr
      have hpre' : ∀ j, j < e → f (s + 1 + j) ≠ PingOutcome.err := by
        intro j hj
        have h : s + 1 + j = s + (j + 1) := by omega
        rw [h]; exact hpre (j + 1) (by omega)
      have hrec := ih (s + 1) m' (by omega) herr' hpre'
      simp only [hostLoop, hv, hrec]

lemma attemptLoop_err (f : ℕ → PingOutcome) :
    ∀ d s m, d < m → f (s + d) = PingOutcome.err →
      (∀ j, j < d → f (s + j) ≠ PingOutcome.err) →
      attemptLoop f s m = d + 1 := by
  intro d
  induction d with
  | zero =>
    intro s m hm herr _
    obtain ⟨m', rfl⟩ : ∃ m', m = m' + 1 := ⟨m - 1, by omega⟩
    simp only [Nat.add_zero] at herr
    simp [attemptLoop, herr]
  | succ e ih =>
    intro s m hm herr hpre
    obtain ⟨m', rfl⟩ : ∃ m', m = m' + 1 := ⟨m - 1, by omega⟩
    have hs : f s ≠ PingOutcome.err := by simpa using hpre 0 (Nat.succ_pos e)
    cases hv : f s with
    | err => exact absurd hv hs
    | val v =>
      have herr' : f (s + 1 + e) = PingOutcome.err := by
        have h : s + 1 + e = s + (e + 1) := by omega
        rw [h]; exact herr
      have hpre' : ∀ j, j < e → f (s + 1 + j) ≠ PingOutcome.err := by
        intro j hj
        have h : s + 1 + j = s + (j + 1) := by omega
        rw [h]; exact hpre (j + 1) (by omega)
      have hrec := ih (s + 1) m' (by omega) herr' hpre'
      simp only [attemptLoop, hv, hrec]
      omega

lemma attemptLoop_no_err (f : ℕ → PingOutcome) :
    ∀ m s, (∀ j, j < m → f (s + j) ≠ PingOutcome.err) → attemptLoop f s m = m := by
  intro m
  induction m with
  | zero => intro s _; rfl
  | succ e ih =>
    intro s hpre
    have hs : f s ≠ PingOutcome.err := by simpa using hpre 0 (Nat.succ_pos e)
    cases hv : f s with
    | err => exact absurd hv hs
    | val v =>
      have hpre' : ∀ j, j < e → f (s + 1 + j) ≠ PingOutcome.err := by
        intro j hj
        have h : s + 1 + j = s + (j + 1) := by omega
        rw [h]; exact hpre (j + 1) (by omega)
      simp only [attemptLoop, hv, ih (s + 1) hpre']
      omega

lemma hostLoop_succ_right (f : ℕ → PingOutcome) :
    ∀ m s, (∀ j, j < m + 1 → f (s + j) ≠ PingOutcome.err) →
      hostLoop f s (m + 1) = hostLoop f s m ++ attemptPiece (f (s + m)) := by
  intro m
  induction m with
  | zero =>
    intro s hpre
    have hs : f s ≠ PingOutcome.err := by simpa using hpre 0 Nat.one_pos
    cases hv : f s with
    | err => exact absurd hv hs
    | val v =>
      by_cases hn : v = PVal.pNone <;>
        simp [hostLoop, attemptPiece, hv, hn]
  | succ e ih =>
    intro s hpre
    have hs : f s ≠ PingOutcome.err := by simpa using hpre 0 (by omega)
    cases hv : f s with
    | err => exact absurd hv hs
    | val v =>
      have hpre' : ∀ j, j < e + 1 → f (s + 1 + j) ≠ PingOutcome.err := by
        intro j hj
        have h : s + 1 + j = s + (j + 1) := by omega
        rw [h]; exact hpre (j + 1) (by omega)
      have hse : s + 1 + e = s + (e + 1) := by omega
      have hrec := ih (s + 1) hpre'
      rw [hse] at hrec
      have lstep : hostLoop f s (e + 1 + 1) =
          if v = PVal.pNone then hostLoop f (s + 1) (e + 1)
          else latencyOf v :: hostLoop f (s + 1) (e + 1) := by
        rw [hostLoop_succ, hv]
      have rstep : hostLoop f s (e + 1) =
          if v = PVal.pNone then hostLoop f (s + 1) e
          else latencyOf v :: hostLoop f (s + 1) e := by
        rw [hostLoop_succ, hv]
      rw [lstep, rstep, hrec]
      by_cases hn : v = PVal.pNone <;> simp [hn]

lemma latencyOf_mem_hostLoop (f : ℕ → PingOutcome) :
    ∀ d s m, d < m → (∀ j, j < d → f (s + j) ≠ PingOutcome.err) →
      ∀ v, f (s + d) = PingOutcome.val v → v ≠ PVal.pNone →
      latencyOf v ∈ hostLoop f s m := by
  intro d
  induction d with
  | zero =>
    intro s m hm _ v hv hn
    obtain ⟨m', rfl⟩ : ∃ m', m = m' + 1 := ⟨m - 1, by omega⟩
    simp only [Nat.add_zero] at hv
    simp [hostLoop, hv, hn]
  | succ e ih =>
    intro s m hm hpre v hv hn
    obtain ⟨m', rfl⟩ : ∃ m', m = m' + 1 := ⟨m - 1, by omega⟩
    have hs : f s ≠ PingOutcome.err := by simpa using hpre 0 (Nat.succ_pos e)
    cases hw : f s with
    | err => exact absurd hw hs
    | val w =>
      have hv' : f (s + 1 + e) = PingOutcome.val v := by
        have h : s + 1 + e = s + (e + 1) := by omega
        rw [h]; exact hv
      have hpre' : ∀ j, j < e → f (s + 1 + j) ≠ PingOutcome.err := by
        intro j hj
        have h : s + 1 + j = s + (j + 1) := by omega
        rw [h]; exact hpre (j + 1) (by omega)
      have hrec := ih (s + 1) m' (by omega) hpre' v hv' hn
      by_cases hwn : w = PVal.pNone <;> simp [hostLoop, hw, hwn, hrec]

lemma hostLats_eq_successLatencies (f : ℕ → PingOutcome) :
    ∀ n, (∀ k, k < n → f k ≠ PingOutcome.err) → hostLats f n = successLatencies f n := by
  intro n
  induction n with
  | zero => intro _; rfl
  | succ m ih =>
    intro hpre
    have hm : hostLats f (m + 1) = hostLats f m ++ attemptPiece (f m) := by
      have := hostLoop_succ_right f m 0 (by simpa using hpre)
      simpa [hostLats] using this
    have hs : successLatencies f (m + 1) = successLatencies f m ++ attemptPiece (f m) := by
      simp only [successLatencies, List.range_succ, List.filterMap_append]
      cases hv : f m with
      | err => exact absurd hv (hpre m (by omega))
      | val v => by_cases hn : v = PVal.pNone <;> simp [attemptPiece, hv, hn]
    rw [hm, hs, ih (fun k hk => hpre k (by omega))]

lemma hostRow_name (e : Entry) (f : ℕ → PingOutcome) (n t : ℕ) :
    (hostRow e f n t).name = e.name := by
  unfold hostRow; split <;> rfl

lemma hostRow_ip (e : Entry) (f : ℕ → PingOutcome) (n t : ℕ) :
    (hostRow e f n t).ip = e.ip := by
  unfold hostRow; split <;> rfl

lemma hostRow_time (e : Entry) (f : ℕ → PingOutcome) (n t : ℕ) :
    (hostRow e f n t).time = t := by
  unfold hostRow; split <;> rfl

lemma hostRow_cell_unreachable (e : Entry) (f : ℕ → PingOutcome) (n t : ℕ) :
    (hostRow e f n t).cell = Cell.unreachable ↔ hostLats f n = [] := by
  unfold hostRow
  split
  next h => simp [List.isEmpty_iff.mp h]
  next h =>
    have hne : hostLats f n ≠ [] := by simpa [List.isEmpty_iff] using h
    simp [hne]

lemma hostRow_cell_avg (e : Entry) (f : ℕ → PingOutcome) (n t : ℕ)
    (h : hostLats f n ≠ []) :
    (hostRow e f n t).cell =
      Cell.avg ((hostLats f n).sum / ((hostLats f n).length : ℚ)) := by
  unfold hostRow
  rw [if_neg (by simpa using h)]

lemma pingIpsGo_fst (env : ℕ → ℕ → PingOutcome) (clock : ℕ → ℕ) (pc : ℕ) :
    ∀ (ips : List Entry) (i : ℕ) (flag : Bool),
      (pingIpsGo env clock pc ips i flag).1 = rowsFrom env clock pc ips i := by
  intro ips
  induction ips with
  | nil => intro i flag; rfl
  | cons e rest ih => intro i flag; simp [pingIpsGo, rowsFrom, ih]

lemma pingIpsGo_snd (env : ℕ → ℕ → PingOutcome) (clock : ℕ → ℕ) (pc : ℕ) :
    ∀ (ips : List Entry) (i : ℕ) (flag : Bool),
      (pingIpsGo env clock pc ips i flag).2 = (flag && allEmpty env pc ips i) := by
  intro ips
  induction ips with
  | nil => intro i flag; simp [pingIpsGo, allEmpty]
  | cons e rest ih =>
    intro i flag
    simp [pingIpsGo, allEmpty, ih, Bool.and_assoc]

lemma pingIps_rows (ips : List Entry) (env : ℕ → ℕ → PingOutcome) (clock : ℕ → ℕ)
    (pc : ℕ) : (pingIps ips env clock pc).rows = rowsFrom env clock pc ips 0 := by
  simp [pingIps, pingIpsGo_fst]

lemma pingIps_flag (ips : List Entry) (env : ℕ → ℕ → PingOutcome) (clock : ℕ → ℕ)
    (pc : ℕ) : (pingIps ips env clock pc).allUnreachable = allEmpty env pc ips 0 := by
  simp [pingIps, pingIpsGo_snd]

lemma rowsFrom_length (env : ℕ → ℕ → PingOutcome) (clock : ℕ → ℕ) (pc : ℕ) :
    ∀ (ips : List Entry) (i : ℕ), (rowsFrom env clock pc ips i).length = ips.length := by
  intro ips
  induction ips with
  | nil => intro i; rfl
  | cons e rest ih => intro i; simp [rowsFrom, ih]

lemma rowsFrom_getElem? (env : ℕ → ℕ → PingOutcome) (clock : ℕ → ℕ) (pc : ℕ) :
    ∀ (ips : List Entry) (i t : ℕ),
      (rowsFrom env clock pc ips i)[t]? =
        ips[t]?.map (fun e => hostRow e (env (i + t)) pc (clock (i + t))) := by
  intro ips
  induction ips with
  | nil => intro i t; simp [rowsFrom]
  | cons e rest ih =>
    intro i t
    cases t with
    | zero => simp [rowsFrom]
    | succ t' =>
      have h : i + (t' + 1) = i + 1 + t' := by omega
      simp [rowsFrom, ih, h]

lemma rowsFrom_map_time (env : ℕ → ℕ → PingOutcome) (clock : ℕ → ℕ) (pc : ℕ) :
    ∀ (ips : List Entry) (i : ℕ),
      (rowsFrom env clock pc ips i).map Row.time = (List.range' i ips.length).map clock := by
  intro ips
  induction ips with
  | nil => intro i; rfl
  | cons e rest ih =>
    intro i
    simp [rowsFrom, List.range'_succ, hostRow_time, ih]

lemma rowsFrom_map_name_ip (env : ℕ → ℕ → PingOutcome) (clock : ℕ → ℕ) (pc : ℕ) :
    ∀ (ips : List Entry) (i : ℕ),
      (rowsFrom env clock pc ips i).map (fun r => (r.name, r.ip)) =
        ips.map (fun e => (e.name, e.ip)) := by
  intro ips
  induction ips with
  | nil => intro i; rfl
  | cons e rest ih =>
    intro i
    simp [rowsFrom, hostRow_name, hostRow_ip, ih]

lemma allEmpty_iff (env : ℕ → ℕ → PingOutcome) (pc : ℕ) :
    ∀ (ips : List Entry) (i : ℕ),
      allEmpty env pc ips i = true ↔
        ∀ t, t < ips.length → hostLats (env (i + t)) pc = [] := by
  intro ips
  induction ips with
  | nil => intro i; simp [allEmpty]
  | cons e rest ih =>
    intro i
    simp only [allEmpty, Bool.and_eq_true, List.isEmpty_iff, ih, List.length_cons]
    constructor
    · rintro ⟨h0, hrest⟩ t ht
      cases t with
      | zero => simpa using h0
      | succ t' =>
        have h : i + (t' + 1) = i + 1 + t' := by omega
        rw [h]; exact hrest t' (by omega)
    · intro h
      refine ⟨by simpa using h 0 (by omega), fun t ht => ?_⟩
      have heq : i + 1 + t = i + (t + 1) := by omega
      rw [heq]; exact h (t + 1) (by omega)

lemma allEmpty_iff_rows (env : ℕ → ℕ → PingOutcome) (clock : ℕ → ℕ) (pc : ℕ) :
    ∀ (ips : List Entry) (i : ℕ),
      allEmpty env pc ips i = true ↔
        ∀ r ∈ rowsFrom env clock pc ips i, r.cell = Cell.unreachable := by
  intro ips
  induction ips with
  | nil => intro i; simp [allEmpty, rowsFrom]
  | cons e rest ih =>
    intro i
    simp only [allEmpty, Bool.and_eq_true, List.isEmpty_iff, ih, rowsFrom,
      List.mem_cons, forall_eq_or_imp, hostRow_cell_unreachable]

lemma reportPath_ne_empty (ts : String) : reportPath ts ≠ "" := by
  intro h
  have hlen := congrArg String.length h
  rw [reportPath, String.length_append, String.length_append] at hlen
  have h1 : (0 : ℕ) < "C:/Users/kapingura/Documents/BHC/reports/BHC LINK REPORT_".length := by
    decide
  have h2 : ("" : String).length = 0 := by decide
  omega

/-- C1 counterexample: take ping_count = 5 and a host whose third ping call
raises (attempts 0 and 1 return latency 1). Because the try/except of
ping_ips wraps the whole attempt loop, only 3 of the 5 ping calls are
performed and only 2 latencies are recorded — the probe does not perform
and record exactly ping_count attempt results, refuting the claim that an
error is converted to a failure for that attempt only. -/
theorem C1_counterexample :
    attemptsPerformed
        (fun k => if k = 2 then PingOutcome.err else PingOutcome.val (PVal.pFloat 1)) 5 = 3 ∧
      (3 : ℕ) ≠ 5 ∧
      hostLats
        (fun k => if k = 2 then PingOutcome.err else PingOutcome.val (PVal.pFloat 1)) 5 =
        [1, 1] :=
  ⟨by decide, by decide, by decide⟩

/-- C1 amended: a transport-level error raised on an attempt is caught and
never propagates to the caller, but it aborts the remaining attempts of that
host: if the first error of a host occurs on attempt k < n, exactly k + 1 of
the n requested ping calls are performed, and the host's recorded latencies
are exactly those of the k attempts before the error. -/
theorem C1_amended (f : ℕ → PingOutcome) (n k : ℕ) (hk : k < n)
    (herr : f k = PingOutcome.err)
    (hpre : ∀ j, j < k → f j ≠ PingOutcome.err) :
    attemptsPerformed f n = k + 1 ∧ hostLats f n = hostLats f k := by
  constructor
  · have h := attemptLoop_err f k 0 n hk (by simpa using herr) (by simpa using hpre)
    simpa [attemptsPerformed] using h
  · have h := hostLoop_err_trunc f k 0 n hk (by simpa using herr) (by simpa using hpre)
    simpa [hostLats] using h

/-- C1 amended witness: the amended statement instantiated at the concrete
environment that raises on attempt 2 out of 5. -/
theorem C1_amended_witness :
    ((2 : ℕ) < 5 ∧
      (fun k => if k = 2 then PingOutcome.err else PingOutcome.val (PVal.pFloat 1)) 2 =
        PingOutcome.err ∧
      (∀ j, j < 2 →
        (fun k => if k = 2 then PingOutcome.err else PingOutcome.val (PVal.pFloat 1)) j ≠
          PingOutcome.err)) ∧
    (attemptsPerformed
        (fun k => if k = 2 then PingOutcome.err else PingOutcome.val (PVal.pFloat 1)) 5 =
        2 + 1 ∧
      hostLats
        (fun k => if k = 2 then PingOutcome.err else PingOutcome.val (PVal.pFloat 1)) 5 =
      hostLats
        (fun k => if k = 2 then PingOutcome.err else PingOutcome.val (PVal.pFloat 1)) 2) :=
  ⟨⟨by decide, by decide, by decide⟩,
    C1_amended (fun k => if k = 2 then PingOutcome.err else PingOutcome.val (PVal.pFloat 1))
      5 2 (by decide) (by decide) (by decide)⟩

/-- C2 counterexample: on the empty registry ping_ips returns
all_unreachable = true (the flag is initialised to True and the loop body
never runs), not false as the claim states. -/
theorem C2_counterexample :
    ¬ ((pingIps [] (fun _ _ => PingOutcome.val PVal.pNone) (fun i => i) 5).allUnreachable =
        false) := by
  decide

/-- C2 amended: for the empty registry ping_ips returns
all_unreachable = true (so the error-notification path would be taken),
whatever the ping outcomes, the clock and the attempt count. -/
theorem C2_amended (env : ℕ → ℕ → PingOutcome) (clock : ℕ → ℕ) (pc : ℕ) :
    (pingIps [] env clock pc).allUnreachable = true := rfl

/-- C3: for a non-empty registry the boolean returned by ping_ips is true
iff every host recorded zero successful attempts (host i records the
latencies hostLats (env i) pc; a host summary is Unreachable exactly when
that list is empty); consequently if any host has a successful attempt the
flag is false. -/
theorem C3_flag_iff (ips : List Entry) (env : ℕ → ℕ → PingOutcome)
    (clock : ℕ → ℕ) (pc : ℕ) (_hne : ips ≠ []) :
    (pingIps ips env clock pc).allUnreachable = true ↔
      ∀ i, i < ips.length → hostLats (env i) pc = [] := by
  rw [pingIps_flag]
  simpa using allEmpty_iff env pc ips 0

/-- C3 witness: the statement instantiated at a one-host registry whose
attempts all time out (ping returns None). -/
theorem C3_flag_iff_witness :
    ([(⟨"A", "1.1.1.1"⟩ : Entry)] ≠ []) ∧
    ((pingIps [⟨"A", "1.1.1.1"⟩] (fun _ _ => PingOutcome.val PVal.pNone)
        (fun i => i) 5).allUnreachable = true ↔
      ∀ i, i < [(⟨"A", "1.1.1.1"⟩ : Entry)].length →
        hostLats ((fun (_ _ : ℕ) => PingOutcome.val PVal.pNone) i) 5 = []) :=
  ⟨by decide,
    C3_flag_iff [⟨"A", "1.1.1.1"⟩] (fun _ _ => PingOutcome.val PVal.pNone)
      (fun i => i) 5 (by decide)⟩

/-- C4: over an error-free attempt sequence, the host's report cell is the
simple arithmetic mean of exactly the successful attempts' latencies
(failures excluded, no weighting) when at least one attempt succeeded, and
reads "Unreachable" when no attempt succeeded. -/
theorem C4_summarize (e : Entry) (f : ℕ → PingOutcome) (n t : ℕ)
    (hok : ∀ k, k < n → f k ≠ PingOutcome.err) :
    (hostRow e f n t).cell =
      if (successLatencies f n).isEmpty then Cell.unreachable
      else
        Cell.avg ((successLatencies f n).sum / ((successLatencies f n).length : ℚ)) := by
  have hls := hostLats_eq_successLatencies f n hok
  by_cases hemp : successLatencies f n = []
  · rw [if_pos (by simpa [List.isEmpty_iff] using hemp)]
    exact (hostRow_cell_unreachable e f n t).mpr (hls.trans hemp)
  · rw [if_neg (by simpa [List.isEmpty_iff] using hemp)]
    rw [hostRow_cell_avg e f n t (by rw [hls]; exact hemp), hls]

/-- C4 witness: the statement instantiated at five attempts that all
succeed with latency 1. -/
theorem C4_summarize_witness :
    (∀ k, k < 5 →
      (fun _ : ℕ => PingOutcome.val (PVal.pFloat 1)) k ≠ PingOutcome.err) ∧
    (hostRow ⟨"A", "1.1.1.1"⟩ (fun _ => PingOutcome.val (PVal.pFloat 1)) 5 0).cell =
      if (successLatencies (fun _ => PingOutcome.val (PVal.pFloat 1)) 5).isEmpty then
        Cell.unreachable
      else
        Cell.avg ((successLatencies (fun _ => PingOutcome.val (PVal.pFloat 1)) 5).sum /
          ((successLatencies (fun _ => PingOutcome.val (PVal.pFloat 1)) 5).length : ℚ)) :=
  ⟨by decide,
    C4_summarize ⟨"A", "1.1.1.1"⟩ (fun _ => PingOutcome.val (PVal.pFloat 1)) 5 0 (by decide)⟩

/-- C5 counterexample: ping_ips calls datetime.now() once per host inside
the registry loop; with a clock that advances between calls, the two rows
of one cycle carry the different timestamps 0 and 1, so the summaries of a
cycle do not all carry one single instant. -/
theorem C5_counterexample :
    ((pingIps [⟨"A", "1.1.1.1"⟩, ⟨"B", "2.2.2.2"⟩]
        (fun _ _ => PingOutcome.val PVal.pNone) (fun i => i) 5).rows.map Row.time =
      [0, 1]) ∧
    (0 : ℕ) ≠ 1 :=
  ⟨by decide, by decide⟩

/-- C5 amended: each host summary carries its own timestamp: the i-th data
row's timestamp is the instant of the i-th datetime.now() call of the
cycle, taken after that host's probing, not one shared cycle instant. -/
theorem C5_amended (ips : List Entry) (env : ℕ → ℕ → PingOutcome)
    (clock : ℕ → ℕ) (pc : ℕ) :
    (pingIps ips env clock pc).rows.map Row.time = (List.range ips.length).map clock := by
  rw [pingIps_rows, List.range_eq_range']
  exact rowsFrom_map_time env clock pc ips 0

/-- C6: the cycle writes exactly one data row per registry entry and in
registry order: the row list has the registry's length and, position by
position, carries the entry's name and ip — whatever combination of
successes, failures and raised transport errors the probing produced. -/
theorem C6_rows (ips : List Entry) (env : ℕ → ℕ → PingOutcome)
    (clock : ℕ → ℕ) (pc : ℕ) :
    (pingIps ips env clock pc).rows.length = ips.length ∧
    (pingIps ips env clock pc).rows.map (fun r => (r.name, r.ip)) =
      ips.map (fun e => (e.name, e.ip)) := by
  rw [pingIps_rows]
  exact ⟨rowsFrom_length env clock pc ips 0, rowsFrom_map_name_ip env clock pc ips 0⟩

/-- C7: generate_report addresses the message to the error recipient with
the error subject/body exactly when all_unreachable is true, and to the
report recipient with the normal subject/body exactly when it is false; in
both branches the report file is attached. -/
theorem C7_notification (cfg : Config) (ips : List Entry)
    (env : ℕ → ℕ → PingOutcome) (clock : ℕ → ℕ) (ts : String) :
    (((generateReport cfg ips env clock ts).2.recipient = cfg.errorRecipient ∧
      (generateReport cfg ips env clock ts).2.subject = "Ping Report - Error" ∧
      (generateReport cfg ips env clock ts).2.body =
        "All IPs are unreachable or there is no internet access.") ↔
      (generateReport cfg ips env clock ts).1.allUnreachable = true) ∧
    (((generateReport cfg ips env clock ts).2.recipient = cfg.reportRecipient ∧
      (generateReport cfg ips env clock ts).2.subject = "Network Status Report" ∧
      (generateReport cfg ips env clock ts).2.body =
        "Please find attached the latest network status report.") ↔
      (generateReport cfg ips env clock ts).1.allUnreachable = false) ∧
    (generateReport cfg ips env clock ts).2.attachment = some (reportPath ts) := by
  have hne := reportPath_ne_empty ts
  have hsub : ("Network Status Report" : String) ≠ "Ping Report - Error" := by decide
  have hsub' : ("Ping Report - Error" : String) ≠ "Network Status Report" := by decide
  unfold generateReport sendEmail
  cases hflag : (pingIps ips env clock 5).allUnreachable
  · simp [hflag, hne, hsub]
  · simp [hflag, hne, hsub']

/-- C8: isolation across hosts: if two ping environments agree on every
host other than j (attempt by attempt) — for instance one raises transport
errors on host j and the other does not — every data row other than row j
is identical in the two runs: the other hosts' probing and summaries are
unaffected. -/
theorem C8_isolation (ips : List Entry) (env env' : ℕ → ℕ → PingOutcome)
    (clock : ℕ → ℕ) (pc : ℕ) (j : ℕ)
    (hagree : ∀ i, i ≠ j → ∀ k, env i k = env' i k) :
    ∀ t, t ≠ j →
      (pingIps ips env clock pc).rows[t]? = (pingIps ips env' clock pc).rows[t]? := by
  intro t ht
  rw [pingIps_rows, pingIps_rows, rowsFrom_getElem?, rowsFrom_getElem?]
  have henv : env t = env' t := funext (hagree t ht)
  simp [henv]

/-- C8 witness: two hosts; the first raises in one environment and succeeds
in the other, all attempts of the second host agree; the second host's row
is the same in both runs. -/
theorem C8_isolation_witness :
    (∀ i, i ≠ 0 → ∀ k,
      (fun i (_ : ℕ) => if i = 0 then PingOutcome.err else PingOutcome.val PVal.pNone) i k =
      (fun i (_ : ℕ) =>
        if i = 0 then PingOutcome.val (PVal.pFloat 1) else PingOutcome.val PVal.pNone) i k) ∧
    (pingIps [⟨"A", "1.1.1.1"⟩, ⟨"B", "2.2.2.2"⟩]
        (fun i _ => if i = 0 then PingOutcome.err else PingOutcome.val PVal.pNone)
        (fun i => i) 5).rows[1]? =
      (pingIps [⟨"A", "1.1.1.1"⟩, ⟨"B", "2.2.2.2"⟩]
        (fun i _ => if i = 0 then PingOutcome.val (PVal.pFloat 1)
          else PingOutcome.val PVal.pNone)
        (fun i => i) 5).rows[1]? :=
  ⟨fun i hi k => by simp [hi],
    C8_isolation [⟨"A", "1.1.1.1"⟩, ⟨"B", "2.2.2.2"⟩]
      (fun i _ => if i = 0 then PingOutcome.err else PingOutcome.val PVal.pNone)
      (fun i _ => if i = 0 then PingOutcome.val (PVal.pFloat 1)
        else PingOutcome.val PVal.pNone)
      (fun i => i) 5 0 (fun i hi k => by simp [hi]) 1 (by decide)⟩

/-- C9: an attempt whose ping call returns any non-None value — including
the falsy False, whose numeric value is 0 — is treated as a success: if it
is reached (no earlier attempt of that host raised), its numeric value is
in the host's latency list (hence enters the arithmetic mean) and the
cycle's all_unreachable flag is false. -/
theorem C9_falsy (ips : List Entry) (env : ℕ → ℕ → PingOutcome)
    (clock : ℕ → ℕ) (pc : ℕ) (i k : ℕ) (v : PVal)
    (hi : i < ips.length) (hk : k < pc)
    (hpre : ∀ j, j < k → env i j ≠ PingOutcome.err)
    (hv : env i k = PingOutcome.val v) (hn : v ≠ PVal.pNone) :
    latencyOf v ∈ hostLats (env i) pc ∧
      (pingIps ips env clock pc).allUnreachable = false := by
  have hmem : latencyOf v ∈ hostLats (env i) pc := by
    have h := latencyOf_mem_hostLoop (env i) k 0 pc hk (by simpa using hpre) v
      (by simpa using hv) hn
    simpa [hostLats] using h
  refine ⟨hmem, ?_⟩
  rw [pingIps_flag]
  cases h : allEmpty env pc ips 0
  · rfl
  · exfalso
    have hempty := (allEmpty_iff env pc ips 0).mp h i hi
    rw [Nat.zero_add] at hempty
    rw [hempty] at hmem
    exact absurd hmem (List.not_mem_nil _)

/-- C9 witness: one host whose five attempts all return False: its numeric
value 0 is recorded and the cycle flag is false. -/
theorem C9_falsy_witness :
    ((0 : ℕ) < [(⟨"A", "1.1.1.1"⟩ : Entry)].length ∧ (0 : ℕ) < 5 ∧
      (∀ j, j < 0 →
        (fun (_ _ : ℕ) => PingOutcome.val PVal.pFalse) 0 j ≠ PingOutcome.err) ∧
      (fun (_ _ : ℕ) => PingOutcome.val PVal.pFalse) 0 0 = PingOutcome.val PVal.pFalse ∧
      PVal.pFalse ≠ PVal.pNone) ∧
    (latencyOf PVal.pFalse ∈ hostLats ((fun (_ _ : ℕ) => PingOutcome.val PVal.pFalse) 0) 5 ∧
      (pingIps [⟨"A", "1.1.1.1"⟩] (fun _ _ => PingOutcome.val PVal.pFalse)
        (fun i => i) 5).allUnreachable = false) :=
  ⟨⟨by decide, by decide, by decide, by decide, by decide⟩,
    C9_falsy [⟨"A", "1.1.1.1"⟩] (fun _ _ => PingOutcome.val PVal.pFalse)
      (fun i => i) 5 0 0 PVal.pFalse (by decide) (by decide) (by decide)
      (by decide) (by decide)⟩

/-- C10: the boolean ping_ips returns is consistent with the report it
wrote: it is true iff every data row's average-response-time cell reads
"Unreachable", and false iff some data row carries a numeric average. -/
theorem C10_flag_rows (ips : List Entry) (env : ℕ → ℕ → PingOutcome)
    (clock : ℕ → ℕ) (pc : ℕ) :
    ((pingIps ips env clock pc).allUnreachable = true ↔
      ∀ r ∈ (pingIps ips env clock pc).rows, r.cell = Cell.unreachable) ∧
    ((pingIps ips env clock pc).allUnreachable = false ↔
      ∃ r ∈ (pingIps ips env clock pc).rows, ∃ q, r.cell = Cell.avg q) := by
  have h1 : (pingIps ips env clock pc).allUnreachable = true ↔
      ∀ r ∈ (pingIps ips env clock pc).rows, r.cell = Cell.unreachable := by
    rw [pingIps_flag, pingIps_rows]
    exact allEmpty_iff_rows env clock pc ips 0
  refine ⟨h1, ?_⟩
  rw [← Bool.not_eq_true, h1]
  push_neg
  constructor
  · rintro ⟨r, hr, hcell⟩
    refine ⟨r, hr, ?_⟩
    cases hc : r.cell with
    | avg q => exact ⟨q, rfl⟩
    | unreachable => exact absurd hc hcell
  · rintro ⟨r, hr, q, hq⟩
    exact ⟨r, hr, by simp [hq]⟩

end NetworkPulse
